import Mathlib

/-!
Shallow embedding of the photon-serve artifact storage engine
(`internal/services/file_service.go`, `internal/config/config.go`,
`internal/middleware` rate limiter) and proofs about the frozen claims.

Modelling conventions:
* Machine file metadata is reduced to the fields the claims mention: file
  name and modification time (`modTime`, whole seconds since epoch).  Byte
  contents, sizes and download counters are not modelled; no claim depends
  on them.
* A category directory is a `List FileEntry`; `os.ReadDir` returns entries
  sorted by filename, modelled by sorting the list by name on every read.
* Fallible filesystem syscalls (`os.Remove`, `os.CreateTemp`, `io.Copy`,
  `os.Rename`, `os.Create`, `File.Sync`) are driven by explicit oracles so
  that every error path of the Go code is reachable in the model.
* `sort.Slice` is an unstable sort: the Go runtime only guarantees that the
  result is some permutation that is nondecreasing under the comparator.
  Deterministic functions below use `List.insertionSort` as one admissible
  implementation; claims that depend on the order of equal keys are stated
  against the relational specification `ValidModTimeSort` instead.
-/

namespace RomServer

/-- Characters of `s` with every occurrence of `c` removed; models
Go `strings.ReplaceAll(s, c, "")` for a one-character pattern. -/
def removeAllChar (c : Char) (s : String) : String :=
  String.mk (s.toList.filter (fun d => d ≠ c))

/-- Models Go `path/filepath.Base` on Unix: empty path gives ".",
a path of only slashes gives "/", otherwise trailing slashes are dropped
and the part after the last slash is returned. -/
def filepathBase (s : String) : String :=
  if s = "" then "."
  else
    let stripped := (s.toList.reverse.dropWhile (fun c => c = '/')).reverse
    if stripped = [] then "/"
    else String.mk ((stripped.reverse.takeWhile (fun c => c ≠ '/')).reverse)

/-- Models `services.SanitizeFilename`: take `filepath.Base`, then strip
any remaining '/' and '\'. -/
def SanitizeFilename (s : String) : String :=
  removeAllChar '\\' (removeAllChar '/' (filepathBase s))

/-- Suffix of the name starting at its last dot, or `none`; helper for
`fileExt`. -/
def lastDotSuffix : List Char → Option (List Char)
  | [] => none
  | c :: cs =>
    match lastDotSuffix cs with
    | some r => some r
    | none => if c = '.' then some (c :: cs) else none

/-- Models Go `filepath.Ext` for bare file names (no separators): the
suffix beginning at the final dot, or "" when there is no dot. -/
def fileExt (s : String) : String :=
  (lastDotSuffix s.toList).elim "" String.mk

instance {ε α : Type} [DecidableEq ε] [DecidableEq α] : DecidableEq (Except ε α) :=
  fun a b =>
    match a, b with
    | Except.ok x, Except.ok y =>
      if h : x = y then isTrue (by subst h; rfl)
      else isFalse (by intro hh; injection hh; exact h (by assumption))
    | Except.error x, Except.error y =>
      if h : x = y then isTrue (by subst h; rfl)
      else isFalse (by intro hh; injection hh; exact h (by assumption))
    | Except.ok _, Except.error _ => isFalse (by intro hh; exact Except.noConfusion hh)
    | Except.error _, Except.ok _ => isFalse (by intro hh; exact Except.noConfusion hh)

/-- A directory entry as the service sees it: name plus modification time
in whole seconds (Go `info.ModTime().Unix()`). -/
structure FileEntry where
  name : String
  modTime : Nat
deriving DecidableEq

/-- Comparator of `enforceFileLimit`'s `sort.Slice` call, relaxed to the
reflexive order the runtime guarantees on the result. -/
def byModTime : FileEntry → FileEntry → Prop :=
  fun a b => a.modTime ≤ b.modTime

instance : DecidableRel byModTime := fun a b => Nat.decLe a.modTime b.modTime

instance : IsTotal FileEntry byModTime := ⟨fun a b => Nat.le_total a.modTime b.modTime⟩

instance : IsTrans FileEntry byModTime := ⟨fun _ _ _ h1 h2 => Nat.le_trans h1 h2⟩

/-- Lexicographic filename comparison, by code point (UTF-8 byte order —
what `os.ReadDir`'s sort uses — coincides with code-point order). -/
def nameLe : List Char → List Char → Bool
  | [], _ => true
  | _ :: _, [] => false
  | a :: as, b :: bs => if a = b then nameLe as bs else decide (a < b)

/-- Filename order of `os.ReadDir` results. -/
def byName : FileEntry → FileEntry → Prop :=
  fun a b => nameLe a.name.toList b.name.toList = true

instance : DecidableRel byName := fun _ _ => Bool.decEq _ _

instance : IsTotal FileEntry byName := ⟨by
  have aux : ∀ xs ys : List Char, nameLe xs ys = true ∨ nameLe ys xs = true := by
    intro xs
    induction xs with
    | nil => intro ys; left; rfl
    | cons a as ih =>
      intro ys
      cases ys with
      | nil => right; rfl
      | cons b bs =>
        by_cases hab : a = b
        · subst hab
          simpa [nameLe] using ih bs
        · simp only [nameLe, if_neg hab, if_neg (Ne.symm hab), decide_eq_true_eq]
          rcases lt_trichotomy a b with h | h | h
          · exact Or.inl h
          · exact absurd h hab
          · exact Or.inr h
  exact fun x y => aux x.name.toList y.name.toList⟩

instance : IsTrans FileEntry byName := ⟨by
  have aux : ∀ xs ys zs : List Char,
      nameLe xs ys = true → nameLe ys zs = true → nameLe xs zs = true := by
    intro xs
    induction xs with
    | nil => intro ys zs _ _; rfl
    | cons a as ih =>
      intro ys zs h1 h2
      cases ys with
      | nil => cases h1
      | cons b bs =>
        cases zs with
        | nil => cases h2
        | cons c cs =>
          by_cases hab : a = b <;> by_cases hbc : b = c
          · subst hab; subst hbc
            simp only [nameLe, if_pos rfl] at h1 h2 ⊢
            exact ih bs cs h1 h2
          · subst hab
            simp only [nameLe, if_pos rfl] at h1
            simp [nameLe, hbc] at h2 ⊢
            exact h2
          · subst hbc
            simp only [nameLe, if_pos rfl] at h2
            simp [nameLe, hab] at h1 ⊢
            exact h1
          · simp [nameLe, hab, hbc] at h1 h2
            have hac : a < c := lt_trans h1 h2
            simp [nameLe, ne_of_lt hac]
            exact hac
  exact fun x y z h1 h2 => aux _ _ _ h1 h2⟩

/-- Models `os.ReadDir`: the directory entries sorted by filename. -/
def readDir (dir : List FileEntry) : List FileEntry :=
  List.insertionSort byName dir

/-- The eviction loop of `enforceFileLimit`: walk the modTime-sorted list,
removing the head from the directory while the remaining count is still at
least `maxFiles`.  `failDelete` names the files whose `os.Remove` fails
(permission error, concurrent external removal); on such a failure the loop
aborts with the error, keeping every deletion already performed.  Returns
(error?, resulting directory contents).  When `maxFiles = 0` the Go loop
would index an empty slice and panic, but config validation guarantees
`MaxFiles ≥ 1`; the `[]` case below is therefore never reached with
`maxFiles = 0` in validated configurations. -/
def evictLoop (failDelete : String → Bool) (maxFiles : Nat) :
    List FileEntry → List FileEntry → Option String × List FileEntry
  | [], dir => (none, dir)
  | oldest :: rest, dir =>
    if rest.length + 1 ≥ maxFiles then
      if failDelete oldest.name then
        (some ("failed to remove old file " ++ oldest.name), dir)
      else
        evictLoop failDelete maxFiles rest (dir.filter (fun e => e.name ≠ oldest.name))
    else (none, dir)

/-- Models `enforceFileLimit` for a category whose directory exists:
read the directory, sort by modification time (here: the stable
`insertionSort`, one admissible result of the unstable `sort.Slice`), and
run the eviction loop. -/
def enforceFileLimit (failDelete : String → Bool) (maxFiles : Nat)
    (dir : List FileEntry) : Option String × List FileEntry :=
  evictLoop failDelete maxFiles (List.insertionSort byModTime (readDir dir)) dir

/-- Effect of `os.Rename(tempPath, finalPath)` (or the completed fallback
copy) on the category directory: overwrite the entry of the same name if
present, else add the new entry; the new file's modification time is the
commit instant. -/
def insertFile (dir : List FileEntry) (name : String) (now : Nat) : List FileEntry :=
  if dir.any (fun e => e.name = name) then
    dir.map (fun e => if e.name = name then { name := name, modTime := now } else e)
  else dir ++ [{ name := name, modTime := now }]

/-- A configured category (`config.Category`), reduced to the fields the
engine reads: the enabled flag and the retained-file limit. -/
structure Category where
  enabled : Bool
  maxFiles : Nat
deriving DecidableEq

/-- The configuration slice the file service reads (`config.Config`):
upload directory, the category map (as an association list; Go map
iteration order is unspecified, the list order stands in for one
iteration order) and the extension allow-list. -/
structure Config where
  uploadDir : String
  categories : List (String × Category)
  allowedExts : List String
deriving DecidableEq

/-- Association-list lookup modelling Go map indexing
`s.cfg.Categories[category]`. -/
def lookupCat : List (String × Category) → String → Option Category
  | [], _ => none
  | (k, v) :: rest, c => if k = c then some v else lookupCat rest c

/-- Models `Config.IsAllowedExtension`. -/
def IsAllowedExtension (cfg : Config) (ext : String) : Bool :=
  cfg.allowedExts.contains ext

/-- A listing entry (`models.FileInfo`) restricted to the fields the claims
mention.  `updatedAt` is the modification time in whole minutes: the Go
code stores `ModTime().Format("2006-01-02 15:04")` and compares those
fixed-width strings lexicographically, which coincides with numeric
comparison of minutes-since-epoch. -/
structure FileInfo where
  category : String
  filename : String
  updatedAt : Nat
deriving DecidableEq

/-- Comparator of the `ListFiles` sort (`files[i].UpdatedAt >
files[j].UpdatedAt`), relaxed to the reflexive order the runtime
guarantees on the result: newest (largest minute stamp) first. -/
def byUpdatedDesc : FileInfo → FileInfo → Prop :=
  fun a b => b.updatedAt ≤ a.updatedAt

instance : DecidableRel byUpdatedDesc := fun a b => Nat.decLe b.updatedAt a.updatedAt

instance : IsTotal FileInfo byUpdatedDesc := ⟨fun a b => Nat.le_total b.updatedAt a.updatedAt⟩

instance : IsTrans FileInfo byUpdatedDesc := ⟨fun _ _ _ h1 h2 => Nat.le_trans h2 h1⟩

/-- The mutable state of `FileService` that the claims are about: the
category directories on disk (association list from category name to
directory contents; a missing key models a directory whose `os.ReadDir`
or `os.Stat` fails with not-exist) plus the listing cache fields.
Download counters and the semaphores are not modelled. -/
structure ServiceState where
  dirs : List (String × List FileEntry)
  cachedFiles : List FileInfo
  cacheValid : Bool
deriving DecidableEq

/-- Directory lookup for a category. -/
def getDir : List (String × List FileEntry) → String → Option (List FileEntry)
  | [], _ => none
  | (k, v) :: rest, c => if k = c then some v else getDir rest c

/-- Replace the contents of an existing category directory. -/
def setDir (dirs : List (String × List FileEntry)) (c : String)
    (d : List FileEntry) : List (String × List FileEntry) :=
  dirs.map (fun kv => if kv.1 = c then (kv.1, d) else kv)

/-- The listing entries one enabled category contributes to a cache
rebuild: read the directory (skipped entirely when `ReadDir` fails),
keep allowed extensions, project to `FileInfo`. -/
def categoryFileInfos (cfg : Config) (dirs : List (String × List FileEntry))
    (catName : String) : List FileInfo :=
  match getDir dirs catName with
  | none => []
  | some d =>
    ((readDir d).filter (fun e => IsAllowedExtension cfg (fileExt e.name))).map
      (fun e => { category := catName, filename := e.name, updatedAt := e.modTime / 60 })

/-- The slow path of `ListFiles`: scan every enabled category and sort the
combined entries newest-first by their minute-granularity `UpdatedAt`
stamp (`insertionSort` is one admissible result of the unstable
`sort.Slice`). -/
def listFilesRebuild (cfg : Config) (dirs : List (String × List FileEntry)) :
    List FileInfo :=
  List.insertionSort byUpdatedDesc
    ((cfg.categories.filter (fun kv => kv.2.enabled)).flatMap
      (fun kv => categoryFileInfos cfg dirs kv.1))

/-- Models `FileService.ListFiles`: serve the cached snapshot when the
cache is valid, else rebuild from disk and mark the cache valid.  The
merge of live download counters into the returned copies is not modelled.
Returns (result, state after the call). -/
def ListFiles (cfg : Config) (st : ServiceState) : List FileInfo × ServiceState :=
  if st.cacheValid then (st.cachedFiles, st)
  else
    let files := listFilesRebuild cfg st.dirs
    (files, { st with cachedFiles := files, cacheValid := true })

/-- Models `FileService.ListFilesByCategory`: call `ListFiles`, then set
`cacheValid` to `false` (the Go code does this unconditionally, before its
error check), then filter to the requested category.  `ListFiles` never
returns an error, so the error branch is dead. -/
def ListFilesByCategory (cfg : Config) (category : String) (st : ServiceState) :
    List FileInfo × ServiceState :=
  let r := ListFiles cfg st
  let st2 := { r.2 with cacheValid := false }
  (r.1.filter (fun f => f.category = category), st2)

/-- Failure oracles for one `SaveFile` call, naming which of its fallible
syscalls fail: temp-file creation (`os.CreateTemp`), streaming into the
temp file (`io.Copy`), each retention deletion (`os.Remove`, by file
name), the atomic move (`os.Rename`), and inside the `manualMove`
fallback the destination create (`os.Create`), the data copy (`io.Copy`)
and the fsync (`File.Sync`).  `manualMove`'s source open, close and
source removal are taken to succeed. -/
structure SaveOracles where
  tempOk : Bool
  streamOk : Bool
  failDelete : String → Bool
  renameOk : Bool
  destCreateOk : Bool
  copyOk : Bool
  syncOk : Bool

/-- The oracle of an undisturbed run: every syscall succeeds. -/
def noFail : SaveOracles :=
  { tempOk := true, streamOk := true, failDelete := fun _ => false,
    renameOk := true, destCreateOk := true, copyOk := true, syncOk := true }

/-- Models `FileService.SaveFile`.  Order of the Go code: create temp
file, stream into it, enter the critical section, `enforceFileLimit`
(which errors when the category is not in the config map, and treats a
missing directory as empty), then `os.Rename` with the `manualMove`
fallback.  When the category directory itself is missing the move cannot
succeed whatever the oracles say, since the destination directory does
not exist.  In the fallback, a failing copy or sync leaves the created
destination file in place (the Go code removes only the temp file);
presence of that partial file is modelled by `insertFile`.  Note that no
branch of the Go function touches `cacheValid`. -/
def SaveFile (cfg : Config) (o : SaveOracles) (category filename : String)
    (now : Nat) (st : ServiceState) : Option String × ServiceState :=
  if ¬ o.tempOk then (some "failed to create temp file", st)
  else if ¬ o.streamOk then (some "failed to write file", st)
  else
    match lookupCat cfg.categories category, getDir st.dirs category with
    | none, _ => (some ("failed to enforce file limit: category " ++ category ++ " not found"), st)
    | some _, none => (some "failed to save file", st)
    | some cat, some dir =>
      match enforceFileLimit o.failDelete cat.maxFiles dir with
      | (some e, dir1) =>
        (some ("failed to enforce file limit: " ++ e),
         { st with dirs := setDir st.dirs category dir1 })
      | (none, dir1) =>
        if o.renameOk then
          (none, { st with dirs := setDir st.dirs category (insertFile dir1 filename now) })
        else if ¬ o.destCreateOk then
          (some "failed to save file", { st with dirs := setDir st.dirs category dir1 })
        else if ¬ o.copyOk then
          (some "failed to save file",
           { st with dirs := setDir st.dirs category (insertFile dir1 filename now) })
        else if ¬ o.syncOk then
          (some "failed to save file",
           { st with dirs := setDir st.dirs category (insertFile dir1 filename now) })
        else
          (none, { st with dirs := setDir st.dirs category (insertFile dir1 filename now) })

/-- Models `FileService.DeleteFile`: invalidate the cache first (the Go
code does this before anything else), sanitize with `filepath.Base`, then
`os.Stat`; a missing file (or missing category directory) yields the
not-found error with no directory change.  The final `os.Remove` of an
existing file is taken to succeed. -/
def DeleteFile (category filename : String) (st : ServiceState) :
    Option String × ServiceState :=
  let st1 := { st with cacheValid := false }
  let safe := filepathBase filename
  match getDir st1.dirs category with
  | none => (some "file not found", st1)
  | some dir =>
    if dir.any (fun e => e.name = safe) then
      (none, { st1 with dirs := setDir st1.dirs category (dir.filter (fun e => e.name ≠ safe)) })
    else (some "file not found", st1)

/-- Models `FileService.GetFilePath`: sanitize with `filepath.Base`, join
`uploadDir/category/name`, and `os.Stat` the result; returns the joined
path when the file exists, a not-found error otherwise. -/
def GetFilePath (cfg : Config) (category filename : String)
    (dirs : List (String × List FileEntry)) : Except String String :=
  let safe := filepathBase filename
  match getDir dirs category with
  | none => Except.error "file not found"
  | some dir =>
    if dir.any (fun e => e.name = safe) then
      Except.ok (cfg.uploadDir ++ "/" ++ category ++ "/" ++ safe)
    else Except.error "file not found"

/-- One directory-segment step of Go `filepath.Clean` on a relative
path: empty and "." segments vanish, ".." pops the previous segment.
(`filepath.Join` concatenates its arguments with '/' and then runs
`Clean`; for arguments that themselves contain no '/', the segment list
of the joined path is exactly the argument list.) -/
def resolveSegs (segs : List String) : List String :=
  segs.foldl
    (fun acc seg =>
      if seg = "" ∨ seg = "." then acc
      else if seg = ".." then acc.dropLast
      else acc ++ [seg]) []

/-- The resolved path stays inside the category directory: its first two
segments are still the upload directory and the category. -/
def WithinCategory (up cat : String) (segs : List String) : Prop :=
  segs.take 2 = [up, cat]

instance (up cat : String) (segs : List String) : Decidable (WithinCategory up cat segs) :=
  inferInstanceAs (Decidable (segs.take 2 = [up, cat]))

/-- Per-client token-bucket state (`middleware.clientBucket`): current
tokens (a Go `int`) and the last refill instant.  Time is modelled in
whole seconds; `lastRefill` is the instant `time.Now()` of the creating
or last refilling call. -/
structure ClientBucket where
  tokens : Int
  lastRefill : Nat
deriving DecidableEq

/-- The rate limiter (`middleware.RateLimiter`): per-identity buckets plus
the configured refill rate (tokens per minute) and burst capacity.  The
cleanup goroutine is not modelled (no claim depends on it). -/
structure RateLimiter where
  clients : List (String × ClientBucket)
  rate : Nat
  burst : Nat
deriving DecidableEq

/-- Go map lookup `rl.clients[ip]`. -/
def lookupClient : List (String × ClientBucket) → String → Option ClientBucket
  | [], _ => none
  | (k, v) :: rest, ip => if k = ip then some v else lookupClient rest ip

/-- Overwrite the bucket stored for `ip` (the Go code mutates the bucket
through its pointer). -/
def setClient (cs : List (String × ClientBucket)) (ip : String)
    (b : ClientBucket) : List (String × ClientBucket) :=
  cs.map (fun kv => if kv.1 = ip then (kv.1, b) else kv)

/-- Models `RateLimiter.Allow` at instant `now` (whole seconds).  A fresh
identity gets a bucket pre-charged with `burst - 1` tokens and is
admitted.  Otherwise tokens are refilled by
`int(elapsed.Minutes() * float64(rate))` — here `elapsed * rate / 60` in
integer arithmetic, which agrees with the Go float computation at the
whole-second elapsed values the claims use (0 and exactly one minute,
where the float arithmetic is exact) — capped at `burst`, and the request
is admitted iff a token remains, consuming one. -/
def Allow (rl : RateLimiter) (ip : String) (now : Nat) : Bool × RateLimiter :=
  match lookupClient rl.clients ip with
  | none =>
    (true, { rl with clients := (ip, { tokens := (rl.burst : Int) - 1, lastRefill := now }) :: rl.clients })
  | some b =>
    let elapsed : Nat := now - b.lastRefill
    let tokensToAdd : Int := ((elapsed * rl.rate : Nat) : Int) / 60
    let b1 : ClientBucket :=
      if 0 < tokensToAdd then
        { tokens := min (b.tokens + tokensToAdd) (rl.burst : Int), lastRefill := now }
      else b
    if 0 < b1.tokens then
      (true, { rl with clients := setClient rl.clients ip { b1 with tokens := b1.tokens - 1 } })
    else
      (false, { rl with clients := setClient rl.clients ip b1 })

/-- `n` consecutive `Allow` calls from the same identity at the same
instant; returns the list of verdicts and the final limiter state. -/
def allowN : Nat → RateLimiter → String → Nat → List Bool × RateLimiter
  | 0, rl, _, _ => ([], rl)
  | n + 1, rl, ip, now =>
    let r1 := Allow rl ip now
    let r2 := allowN n r1.2 ip now
    (r1.1 :: r2.1, r2.2)

/-- Proof-side abbreviation: a limiter whose only bucket belongs to `ip`,
with the given token balance and last-refill instant. -/
def oneClient (tok : Int) (tLast : Nat) (ip : String) (r b : Nat) : RateLimiter :=
  { clients := [(ip, { tokens := tok, lastRefill := tLast })], rate := r, burst := b }

/-- Relational specification of the `sort.Slice` call in
`enforceFileLimit`: the Go runtime guarantees only that the sorted slice
is a permutation of the input that is nondecreasing under the comparator;
the relative order of entries with equal modification times is
unspecified (the sort is documented as unstable).  A "run" of the
retention policy corresponds to one admissible `sorted` value. -/
def ValidModTimeSort (dir sorted : List FileEntry) : Prop :=
  sorted.Perm dir ∧ sorted.Pairwise byModTime

/-- The suffix of the modTime-sorted list that survives the eviction loop
(proof-side characterisation of `evictLoop`'s effect). -/
def evictKeep (m : Nat) : List FileEntry → List FileEntry
  | [] => []
  | o :: rest => if rest.length + 1 ≥ m then evictKeep m rest else o :: rest

/-- State after a sequence of `SaveFile` calls (all with the undisturbed
oracle) for one category; each element of `ops` is (filename, commit
instant). -/
def saveSeq (cfg : Config) (c : String) : ServiceState → List (String × Nat) → ServiceState
  | st, [] => st
  | st, (nm, t) :: rest => saveSeq cfg c (SaveFile cfg noFail c nm t st).2 rest

/-- Whether every call in a `saveSeq` run returned success. -/
def saveSeqOk (cfg : Config) (c : String) : ServiceState → List (String × Nat) → Bool
  | _, [] => true
  | st, (nm, t) :: rest =>
    (SaveFile cfg noFail c nm t st).1.isNone && saveSeqOk cfg c (SaveFile cfg noFail c nm t st).2 rest

/-- Modification time (seconds) of the named file in a directory listing;
used to read the full-precision timestamp back off a listing entry. -/
def findMod (d : List FileEntry) (nm : String) : Nat :=
  ((d.find? (fun e => e.name = nm)).map FileEntry.modTime).getD 0

/-- Concrete configuration used by the scenario claims: category
"vanilla", enabled, `max_files = 3`, ".zip" allowed. -/
def vanillaCfg : Config :=
  { uploadDir := "up",
    categories := [("vanilla", { enabled := true, maxFiles := 3 })],
    allowedExts := [".zip"] }

/-- Fresh state: empty "vanilla" directory, cache invalid. -/
def emptyVanilla : ServiceState :=
  { dirs := [("vanilla", [])], cachedFiles := [], cacheValid := false }

/-- Configuration with `max_files = 2` for the retention-failure
counterexample. -/
def vanillaCfg2 : Config :=
  { uploadDir := "up",
    categories := [("vanilla", { enabled := true, maxFiles := 2 })],
    allowedExts := [".zip"] }

/-- Three files of ages 1 < 2 < 3; used by the retention-failure
counterexample. -/
def threeFileDir : List FileEntry :=
  [{ name := "a.zip", modTime := 1 },
   { name := "b.zip", modTime := 2 },
   { name := "c.zip", modTime := 3 }]

/-- State holding `threeFileDir` in "vanilla", cache invalid. -/
def threeFileState : ServiceState :=
  { dirs := [("vanilla", threeFileDir)], cachedFiles := [], cacheValid := false }

/-- Oracle whose retention deletion fails exactly on "b.zip". -/
def failDeleteB : SaveOracles :=
  { noFail with failDelete := fun n => n = "b.zip" }

/-- Two files modified 10 s and 50 s after the epoch — distinct
timestamps inside the same minute; used by the listing-order
counterexample. -/
def sameMinuteDir : List FileEntry :=
  [{ name := "a.zip", modTime := 10 },
   { name := "b.zip", modTime := 50 }]

/-- State holding `sameMinuteDir` in "vanilla", cache invalid. -/
def sameMinuteState : ServiceState :=
  { dirs := [("vanilla", sameMinuteDir)], cachedFiles := [], cacheValid := false }

/-- Directory with a modification-time tie between "a.zip" and "b.zip";
used by the retention-determinism counterexample. -/
def tieDir : List FileEntry :=
  [{ name := "a.zip", modTime := 1 },
   { name := "b.zip", modTime := 1 },
   { name := "c.zip", modTime := 2 }]

/-- One admissible `sort.Slice` result for `tieDir`: "a.zip" first. -/
def tieSortA : List FileEntry :=
  [{ name := "a.zip", modTime := 1 },
   { name := "b.zip", modTime := 1 },
   { name := "c.zip", modTime := 2 }]

/-- The other admissible `sort.Slice` result for `tieDir`: "b.zip"
first. -/
def tieSortB : List FileEntry :=
  [{ name := "b.zip", modTime := 1 },
   { name := "a.zip", modTime := 1 },
   { name := "c.zip", modTime := 2 }]

/-- Strict modification-time order on directory entries. -/
def ltModTime : FileEntry → FileEntry → Prop :=
  fun a b => a.modTime < b.modTime

instance : IsAntisymm FileEntry ltModTime :=
  ⟨fun a _ h1 h2 => absurd (Nat.lt_trans h1 h2) (Nat.lt_irrefl a.modTime)⟩

/-- Two pointwise pairwise facts combine into a pairwise conjunction. -/
theorem pairwise_and_of {α : Type} {R S : α → α → Prop} :
    ∀ {l : List α}, l.Pairwise R → l.Pairwise S → l.Pairwise (fun a b => R a b ∧ S a b) := by
  intro l h1 h2
  induction h1 with
  | nil => exact List.Pairwise.nil
  | cons hhead _ ih =>
    cases h2 with
    | cons h2head h2tail =>
      exact List.Pairwise.cons (fun b hb => ⟨hhead b hb, h2head b hb⟩) (ih h2tail)

/-- Membership in a `removeAllChar` result implies membership in the
source and distinctness from the removed character. -/
theorem mem_removeAllChar {c d : Char} {s : String}
    (h : d ∈ (removeAllChar c s).toList) : d ∈ s.toList ∧ d ≠ c := by
  have h' : d ∈ s.toList.filter (fun x => decide (x ≠ c)) := h
  refine ⟨List.mem_of_mem_filter h', ?_⟩
  simpa using List.of_mem_filter h'

/-- C10: every call to `ListFilesByCategory` unconditionally leaves the
listing cache invalid (`cacheValid = false`), even though it mutates no
directory contents, so the next `ListFiles` call rebuilds from a full
disk scan. -/
theorem c10_listFilesByCategory_invalidates (cfg : Config) (category : String)
    (st : ServiceState) :
    (ListFilesByCategory cfg category st).2.cacheValid = false
    ∧ (ListFiles cfg (ListFilesByCategory cfg category st).2).1
        = listFilesRebuild cfg (ListFilesByCategory cfg category st).2.dirs := by
  refine ⟨rfl, ?_⟩
  simp [ListFiles, ListFilesByCategory]

/-- C2 (code bug): `DeleteFile` does transition the cache to invalid
unconditionally, and `SaveFile` never touches the cache-validity flag in
any branch; at the failing input — a successful save performed while the
cache is valid — the call returns with the cache still valid, so the next
`ListFiles` serves the pre-mutation snapshot. -/
theorem c2_cache_invalidation :
    (∀ category filename st,
      (DeleteFile category filename st).2.cacheValid = false)
    ∧ (∀ cfg o category filename now st,
        (SaveFile cfg o category filename now st).2.cacheValid = st.cacheValid)
    ∧ ((SaveFile vanillaCfg noFail "vanilla" "f.zip" 30
          { emptyVanilla with cacheValid := true }).1 = none
       ∧ (SaveFile vanillaCfg noFail "vanilla" "f.zip" 30
          { emptyVanilla with cacheValid := true }).2.cacheValid = true) := by
  refine ⟨?_, ?_, by decide⟩
  · intro category filename st
    unfold DeleteFile
    cases hd : getDir st.dirs category with
    | none => simp [hd]
    | some d => simp [hd]; split <;> rfl
  · intro cfg o category filename now st
    unfold SaveFile
    repeat' first | rfl | split

/-- C7: deleting a (category, filename) pair whose file does not exist
returns the not-found error and leaves every directory unchanged. -/
theorem c7_delete_missing (category filename : String) (st : ServiceState)
    (h : ∀ d, getDir st.dirs category = some d →
        d.any (fun e => e.name = filepathBase filename) = false) :
    (DeleteFile category filename st).1 = some "file not found"
    ∧ (DeleteFile category filename st).2.dirs = st.dirs := by
  unfold DeleteFile
  cases hd : getDir st.dirs category with
  | none => simp [hd]
  | some d => simp [hd, h d hd]

/-- Closed instance of `c7_delete_missing`: deleting "missing.zip" from
the empty "vanilla" directory fails with not-found and changes nothing. -/
theorem c7_delete_missing_witness :
    (DeleteFile "vanilla" "missing.zip" emptyVanilla).1 = some "file not found"
    ∧ (DeleteFile "vanilla" "missing.zip" emptyVanilla).2.dirs = emptyVanilla.dirs :=
  c7_delete_missing "vanilla" "missing.zip" emptyVanilla (by
    intro d hd
    simp [emptyVanilla, getDir] at hd
    subst hd
    rfl)

/-- C8 (code bug): after `ListFiles` validates the cache, a successful
`SaveFile` of "f.zip" leaves the file on disk — `GetFilePath` finds it —
yet `ListFilesByCategory` still serves the stale pre-save snapshot, in
which "f.zip" does not appear, because `SaveFile` failed to invalidate
the cache. -/
theorem c8_stale_listing_after_save :
    ((SaveFile vanillaCfg noFail "vanilla" "f.zip" 30
        (ListFiles vanillaCfg emptyVanilla).2).1 = none)
    ∧ GetFilePath vanillaCfg "vanilla" "f.zip"
        (SaveFile vanillaCfg noFail "vanilla" "f.zip" 30
          (ListFiles vanillaCfg emptyVanilla).2).2.dirs
        = Except.ok "up/vanilla/f.zip"
    ∧ (ListFilesByCategory vanillaCfg "vanilla"
        (SaveFile vanillaCfg noFail "vanilla" "f.zip" 30
          (ListFiles vanillaCfg emptyVanilla).2).2).1 = [] := by
  refine ⟨by decide, ?_, by decide⟩
  decide

/-- C3 counterexample: with three files of ages 1 < 2 < 3, `max_files = 2`
and a deletion failure on "b.zip", `SaveFile` returns an error yet
"a.zip" has already been evicted: the directory is not the pre-call
one. -/
theorem c3_counterexample :
    ((SaveFile vanillaCfg2 failDeleteB "vanilla" "d.zip" 10 threeFileState).1.isSome = true)
    ∧ (SaveFile vanillaCfg2 failDeleteB "vanilla" "d.zip" 10 threeFileState).2.dirs
        ≠ threeFileState.dirs := by
  decide

/-- C6 counterexample: `tieSortA` and `tieSortB` are both admissible
results of the unstable `sort.Slice` over `tieDir` (a state with a
modification-time tie), yet the eviction loop removes "a.zip" in one run
and "b.zip" in the other: no deterministic secondary order breaks the
tie. -/
theorem c6_counterexample :
    ValidModTimeSort tieDir tieSortA
    ∧ ValidModTimeSort tieDir tieSortB
    ∧ (evictLoop (fun _ => false) 3 tieSortA tieDir).2
        ≠ (evictLoop (fun _ => false) 3 tieSortB tieDir).2 := by
  refine ⟨⟨by decide, by decide⟩, ⟨by decide, by decide⟩, by decide⟩

/-- C4 counterexample: two files 10 s and 50 s past the epoch share the
minute-granularity `UpdatedAt` stamp, and the rebuild lists "a.zip"
(modified at 10 s) before "b.zip" (modified at 50 s): the returned
sequence is not sorted by full-precision last-modified time
descending. -/
theorem c4_counterexample :
    (ListFiles vanillaCfg sameMinuteState).1.map FileInfo.filename = ["a.zip", "b.zip"]
    ∧ ¬ (ListFiles vanillaCfg sameMinuteState).1.Pairwise
        (fun a b => findMod sameMinuteDir b.filename ≤ findMod sameMinuteDir a.filename) := by
  refine ⟨by decide, by decide⟩

/-- C4 amended: every sequence returned by `ListFiles` is sorted
nonincreasingly by the minute-granularity `UpdatedAt` stamp the code
actually compares (assuming a valid cache holds such a snapshot, which
every rebuild establishes); within one minute, full-precision
modification times may appear out of order. -/
theorem c4_sorted_by_minute (cfg : Config) (st : ServiceState)
    (h : st.cacheValid = true → st.cachedFiles.Pairwise byUpdatedDesc) :
    (ListFiles cfg st).1.Pairwise byUpdatedDesc := by
  unfold ListFiles
  cases hc : st.cacheValid with
  | true => simpa [hc] using h hc
  | false =>
    simp only [hc, Bool.false_eq_true, if_false]
    exact List.sorted_insertionSort byUpdatedDesc _

/-- Closed instance of `c4_sorted_by_minute` at the same-minute state. -/
theorem c4_sorted_by_minute_witness :
    (ListFiles vanillaCfg sameMinuteState).1.Pairwise byUpdatedDesc :=
  c4_sorted_by_minute vanillaCfg sameMinuteState (by decide)

/-- C6 amended: when all modification timestamps in the directory are
pairwise distinct, any two admissible `sort.Slice` results coincide, so
the eviction loop — whatever the deletion outcomes — behaves
identically on any two runs over the same directory state. -/
theorem c6_retention_deterministic_distinct (dir s1 s2 : List FileEntry)
    (m : Nat) (f : String → Bool)
    (h1 : ValidModTimeSort dir s1) (h2 : ValidModTimeSort dir s2)
    (hd : dir.Pairwise (fun a b => a.modTime ≠ b.modTime)) :
    evictLoop f m s1 dir = evictLoop f m s2 dir := by
  have hne1 : s1.Pairwise (fun a b => a.modTime ≠ b.modTime) :=
    (List.Perm.pairwise_iff (fun h => Ne.symm h) h1.1).mpr hd
  have hne2 : s2.Pairwise (fun a b => a.modTime ≠ b.modTime) :=
    (List.Perm.pairwise_iff (fun h => Ne.symm h) h2.1).mpr hd
  have hlt1 : s1.Pairwise ltModTime :=
    (pairwise_and_of h1.2 hne1).imp (fun h => lt_of_le_of_ne h.1 h.2)
  have hlt2 : s2.Pairwise ltModTime :=
    (pairwise_and_of h2.2 hne2).imp (fun h => lt_of_le_of_ne h.1 h.2)
  have heq : s1 = s2 :=
    List.eq_of_perm_of_sorted (h1.1.trans h2.1.symm) hlt1 hlt2
  rw [heq]

/-- Closed instance of `c6_retention_deterministic_distinct` on a
directory with distinct timestamps. -/
theorem c6_retention_deterministic_distinct_witness :
    evictLoop (fun _ => false) 2 sameMinuteDir sameMinuteDir
      = evictLoop (fun _ => false) 2 sameMinuteDir sameMinuteDir :=
  c6_retention_deterministic_distinct sameMinuteDir sameMinuteDir sameMinuteDir 2
    (fun _ => false) ⟨by decide, by decide⟩ ⟨by decide, by decide⟩ (by decide)

/-- C9 counterexample: `SanitizeFilename ".."` is ".." unchanged, and the
joined, cleaned path `uploadDir/category/..` resolves to the upload
directory itself — outside the category directory. -/
theorem c9_counterexample :
    SanitizeFilename ".." = ".."
    ∧ resolveSegs ["up", "vanilla", SanitizeFilename ".."] = ["up"]
    ∧ ¬ WithinCategory "up" "vanilla" (resolveSegs ["up", "vanilla", SanitizeFilename ".."]) := by
  refine ⟨by decide, by decide, by decide⟩

/-- C9 amended: `SanitizeFilename` always returns a string free of '/'
and '\'; joining it under the category directory stays inside that
directory provided the sanitized name is not empty and not a dot
segment ("." or ".."), which sanitization does not remove. -/
theorem c9_sanitize_no_separators (s up cat : String)
    (hup1 : up ≠ "") (hup2 : up ≠ ".") (hup3 : up ≠ "..")
    (hcat1 : cat ≠ "") (hcat2 : cat ≠ ".") (hcat3 : cat ≠ "..") :
    ('/' ∉ (SanitizeFilename s).toList ∧ '\\' ∉ (SanitizeFilename s).toList)
    ∧ (SanitizeFilename s ≠ "" → SanitizeFilename s ≠ "." → SanitizeFilename s ≠ ".." →
        WithinCategory up cat (resolveSegs [up, cat, SanitizeFilename s])) := by
  refine ⟨⟨?_, ?_⟩, ?_⟩
  · intro hmem
    have h1 := mem_removeAllChar hmem
    have h2 := mem_removeAllChar h1.1
    exact h2.2 rfl
  · intro hmem
    exact (mem_removeAllChar hmem).2 rfl
  · intro h1 h2 h3
    unfold WithinCategory resolveSegs
    simp [hup1, hup2, hup3, hcat1, hcat2, hcat3, h1, h2, h3]

/-- Closed instance of `c9_sanitize_no_separators` at "b.zip". -/
theorem c9_sanitize_no_separators_witness :
    ('/' ∉ (SanitizeFilename "b.zip").toList ∧ '\\' ∉ (SanitizeFilename "b.zip").toList)
    ∧ (SanitizeFilename "b.zip" ≠ "" → SanitizeFilename "b.zip" ≠ "." →
        SanitizeFilename "b.zip" ≠ ".." →
        WithinCategory "up" "vanilla" (resolveSegs ["up", "vanilla", SanitizeFilename "b.zip"])) :=
  c9_sanitize_no_separators "b.zip" "up" "vanilla" (by decide) (by decide) (by decide)
    (by decide) (by decide) (by decide)

/-- The eviction loop reports no error when no deletion fails. -/
theorem evictLoop_noFail_fst (m : Nat) :
    ∀ (sorted dir : List FileEntry),
      (evictLoop (fun _ => false) m sorted dir).1 = none := by
  intro sorted
  induction sorted with
  | nil => intro dir; rfl
  | cons o rest ih =>
    intro dir
    unfold evictLoop
    by_cases h : rest.length + 1 ≥ m
    · simp only [h, if_true, Bool.false_eq_true, if_false]
      exact ih _
    · simp [h]

/-- The eviction loop only deletes: its surviving directory is a subset
of the directory it started from, whatever the deletion outcomes. -/
theorem evictLoop_subset (f : String → Bool) (m : Nat) :
    ∀ (sorted dir : List FileEntry), (evictLoop f m sorted dir).2 ⊆ dir := by
  intro sorted
  induction sorted with
  | nil => intro dir x hx; exact hx
  | cons o rest ih =>
    intro dir
    unfold evictLoop
    by_cases h : rest.length + 1 ≥ m
    · simp only [h, if_true]
      by_cases hf : f o.name
      · simp only [hf, if_true]
        exact fun x hx => hx
      · simp only [hf, Bool.false_eq_true, if_false]
        exact fun x hx => List.mem_of_mem_filter (ih _ hx)
    · simp only [h, if_false]
      exact fun x hx => hx

/-- The surviving suffix of the sorted list is a sublist of it. -/
theorem evictKeep_sublist (m : Nat) :
    ∀ l : List FileEntry, (evictKeep m l).Sublist l := by
  intro l
  induction l with
  | nil => exact List.Sublist.refl []
  | cons o rest ih =>
    unfold evictKeep
    by_cases h : rest.length + 1 ≥ m
    · simp only [h, if_true]
      exact ih.trans (List.sublist_cons_self o rest)
    · simp only [h, if_false]
      exact List.Sublist.refl _

/-- When `m ≥ 1` the surviving suffix has fewer than `m` entries. -/
theorem evictKeep_length_lt (m : Nat) (hm : 1 ≤ m) :
    ∀ l : List FileEntry, (evictKeep m l).length < m := by
  intro l
  induction l with
  | nil => simpa [evictKeep] using hm
  | cons o rest ih =>
    unfold evictKeep
    by_cases h : rest.length + 1 ≥ m
    · simp only [h, if_true]
      exact ih
    · simp only [h, if_false, List.length_cons]
      omega

/-- With unique names and a sorted list that is a permutation of the
directory, an eviction run that reports no error survives exactly the
suffix `evictKeep` (up to permutation). -/
theorem evictLoop_perm_evictKeep (f : String → Bool) (m : Nat) :
    ∀ (sorted dir : List FileEntry),
      sorted.Perm dir → (sorted.map FileEntry.name).Nodup →
      (evictLoop f m sorted dir).1 = none →
      (evictLoop f m sorted dir).2.Perm (evictKeep m sorted) := by
  intro sorted
  induction sorted with
  | nil =>
    intro dir hp _ _
    have hnil : dir = [] := hp.symm.eq_nil
    simp [evictLoop, evictKeep, hnil]
  | cons o rest ih =>
    intro dir hp hnd hok
    have hnotin : o.name ∉ rest.map FileEntry.name := (List.nodup_cons.mp hnd).1
    have hndrest : (rest.map FileEntry.name).Nodup := (List.nodup_cons.mp hnd).2
    unfold evictLoop evictKeep
    unfold evictLoop at hok
    by_cases h : rest.length + 1 ≥ m
    · simp only [h, if_true] at hok ⊢
      by_cases hf : f o.name
      · simp only [hf, if_true] at hok
        cases hok
      · simp only [hf, Bool.false_eq_true, if_false] at hok ⊢
        have h2 : (dir.filter (fun e => decide (e.name ≠ o.name))).Perm
            ((o :: rest).filter (fun e => decide (e.name ≠ o.name))) :=
          (hp.symm).filter _
        have hrest : rest.filter (fun e => decide (e.name ≠ o.name)) = rest := by
          apply List.filter_eq_self.mpr
          intro e he
          have hne : e.name ≠ o.name := by
            intro hcontra
            exact hnotin (hcontra ▸ List.mem_map_of_mem FileEntry.name he)
          simpa using hne
        have h3 : (o :: rest).filter (fun e => decide (e.name ≠ o.name)) = rest := by
          rw [List.filter_cons]
          simpa using hrest
        have h4 : (dir.filter (fun e => decide (e.name ≠ o.name))).Perm rest := h3 ▸ h2
        exact ih _ h4.symm hndrest hok
    · simp only [h, if_false]
      exact hp.symm

/-- Any retention run that reports no error — whatever the deletion
oracle — leaves fewer than `maxFiles` uniquely named files. -/
theorem enforceFileLimit_ok (f : String → Bool) (m : Nat) (hm : 1 ≤ m)
    (dir : List FileEntry) (hnd : (dir.map FileEntry.name).Nodup)
    (hok : (enforceFileLimit f m dir).1 = none) :
    (enforceFileLimit f m dir).2.length < m
    ∧ ((enforceFileLimit f m dir).2.map FileEntry.name).Nodup := by
  unfold enforceFileLimit at hok ⊢
  have hperm : (List.insertionSort byModTime (readDir dir)).Perm dir :=
    (List.perm_insertionSort byModTime (readDir dir)).trans
      (List.perm_insertionSort byName dir)
  have hndS : ((List.insertionSort byModTime (readDir dir)).map FileEntry.name).Nodup :=
    ((hperm.map FileEntry.name).nodup_iff).mpr hnd
  have hpk := evictLoop_perm_evictKeep f m (List.insertionSort byModTime (readDir dir)) dir
    hperm hndS hok
  constructor
  · rw [hpk.length_eq]
    exact evictKeep_length_lt m hm _
  · have hsub := evictKeep_sublist m (List.insertionSort byModTime (readDir dir))
    have hndK : ((evictKeep m (List.insertionSort byModTime (readDir dir))).map
        FileEntry.name).Nodup := hndS.sublist (hsub.map FileEntry.name)
    exact ((hpk.map FileEntry.name).nodup_iff).mpr hndK

/-- The undisturbed retention run succeeds and leaves fewer than
`maxFiles` uniquely named files. -/
theorem enforceFileLimit_noFail (m : Nat) (hm : 1 ≤ m) (dir : List FileEntry)
    (hnd : (dir.map FileEntry.name).Nodup) :
    (enforceFileLimit (fun _ => false) m dir).1 = none
    ∧ (enforceFileLimit (fun _ => false) m dir).2.length < m
    ∧ ((enforceFileLimit (fun _ => false) m dir).2.map FileEntry.name).Nodup := by
  have hok : (enforceFileLimit (fun _ => false) m dir).1 = none := by
    unfold enforceFileLimit
    exact evictLoop_noFail_fst m _ _
  obtain ⟨h1, h2⟩ := enforceFileLimit_ok (fun _ => false) m hm dir hnd hok
  exact ⟨hok, h1, h2⟩

/-- Committing the new file adds at most one entry. -/
theorem insertFile_length (dir : List FileEntry) (nm : String) (t : Nat) :
    (insertFile dir nm t).length ≤ dir.length + 1 := by
  unfold insertFile
  by_cases h : dir.any (fun e => e.name = nm)
  · simp [h]
  · simp [h]

/-- Committing the new file preserves uniqueness of names. -/
theorem insertFile_names_nodup (dir : List FileEntry) (nm : String) (t : Nat)
    (h : (dir.map FileEntry.name).Nodup) :
    ((insertFile dir nm t).map FileEntry.name).Nodup := by
  unfold insertFile
  by_cases ha : dir.any (fun e => e.name = nm)
  · simp only [ha, if_true]
    have heq : (dir.map (fun e =>
        if e.name = nm then { name := nm, modTime := t } else e)).map FileEntry.name
        = dir.map FileEntry.name := by
      rw [List.map_map]
      apply List.map_congr_left
      intro e _
      by_cases he : e.name = nm
      · simp [he]
      · simp [he]
    rw [heq]
    exact h
  · simp only [ha, Bool.false_eq_true, if_false]
    rw [List.map_append]
    have hnotin : nm ∉ dir.map FileEntry.name := by
      intro hin
      obtain ⟨e, he, hename⟩ := List.mem_map.mp hin
      have : dir.any (fun e => e.name = nm) = true :=
        List.any_eq_true.mpr ⟨e, he, by simp [hename]⟩
      exact ha this
    simp [List.nodup_append, h, hnotin]

/-- Updating an existing category's directory is visible to lookup. -/
theorem getDir_setDir_self (dirs : List (String × List FileEntry)) (c : String)
    (d : List FileEntry) (h : (getDir dirs c).isSome) :
    getDir (setDir dirs c d) c = some d := by
  induction dirs with
  | nil => simp [getDir] at h
  | cons kv rest ih =>
    obtain ⟨k, v⟩ := kv
    by_cases hk : k = c
    · subst hk
      have h2 : setDir ((k, v) :: rest) k d = (k, d) :: setDir rest k d := by
        simp [setDir]
      rw [h2]
      simp [getDir]
    · have h1 : getDir ((k, v) :: rest) c = getDir rest c := by simp [getDir, hk]
      have h2 : setDir ((k, v) :: rest) c d = (k, v) :: setDir rest c d := by
        simp [setDir, hk]
      have h3 : getDir ((k, v) :: setDir rest c d) c = getDir (setDir rest c d) c := by
        simp [getDir, hk]
      rw [h2, h3]
      rw [h1] at h
      exact ih h

/-- One undisturbed `SaveFile` call succeeds and leaves the category with
at most `maxFiles` uniquely named files. -/
theorem saveFile_noFail_le (cfg : Config) (c nm : String) (t : Nat) (st : ServiceState)
    (cat : Category) (dir : List FileEntry)
    (hcat : lookupCat cfg.categories c = some cat) (hm : 1 ≤ cat.maxFiles)
    (hdir : getDir st.dirs c = some dir) (hnd : (dir.map FileEntry.name).Nodup) :
    (SaveFile cfg noFail c nm t st).1 = none
    ∧ ∃ dir1, getDir (SaveFile cfg noFail c nm t st).2.dirs c = some dir1
        ∧ dir1.length ≤ cat.maxFiles ∧ (dir1.map FileEntry.name).Nodup := by
  obtain ⟨hfst, hlen, hnd1⟩ := enforceFileLimit_noFail cat.maxFiles hm dir hnd
  cases hpp : enforceFileLimit (fun _ => false) cat.maxFiles dir with
  | mk fst snd =>
    rw [hpp] at hfst hlen hnd1
    subst hfst
    unfold SaveFile
    simp only [noFail, Bool.not_true, Bool.false_eq_true, if_false, hcat, hdir, hpp, if_true]
    refine ⟨rfl, insertFile snd nm t, ?_, ?_, ?_⟩
    · exact getDir_setDir_self st.dirs c _ (by rw [hdir]; rfl)
    · exact le_trans (insertFile_length _ nm t) (Nat.succ_le_of_lt hlen)
    · exact insertFile_names_nodup _ nm t hnd1

/-- Any *successful* `SaveFile` call — whatever the failure oracle —
leaves the category with at most `maxFiles` uniquely named files. -/
theorem saveFile_ok_le (cfg : Config) (o : SaveOracles) (c nm : String) (t : Nat)
    (st : ServiceState) (cat : Category) (dir : List FileEntry)
    (hcat : lookupCat cfg.categories c = some cat) (hm : 1 ≤ cat.maxFiles)
    (hdir : getDir st.dirs c = some dir) (hnd : (dir.map FileEntry.name).Nodup)
    (hsucc : (SaveFile cfg o c nm t st).1 = none) :
    ∀ dir1, getDir (SaveFile cfg o c nm t st).2.dirs c = some dir1 →
      dir1.length ≤ cat.maxFiles ∧ (dir1.map FileEntry.name).Nodup := by
  unfold SaveFile at hsucc ⊢
  by_cases h1 : o.tempOk
  · by_cases h2 : o.streamOk
    · rw [if_neg (by simpa using h1), if_neg (by simpa using h2)] at hsucc ⊢
      cases henf : enforceFileLimit o.failDelete cat.maxFiles dir with
      | mk fst snd =>
        simp only [hcat, hdir, henf] at hsucc ⊢
        cases fst with
        | some e => simp at hsucc
        | none =>
          dsimp only at hsucc ⊢
          have hb := enforceFileLimit_ok o.failDelete cat.maxFiles hm dir hnd (by rw [henf])
          rw [henf] at hb
          intro dir1 hdir1
          by_cases hr : o.renameOk
          · rw [if_pos hr] at hdir1
            simp only at hdir1
            rw [getDir_setDir_self st.dirs c _ (by rw [hdir]; rfl)] at hdir1
            cases hdir1
            exact ⟨le_trans (insertFile_length _ nm t) (Nat.succ_le_of_lt hb.1),
                   insertFile_names_nodup _ nm t hb.2⟩
          · rw [if_neg hr] at hsucc hdir1
            by_cases hd2 : o.destCreateOk
            · rw [if_neg (by simpa using hd2)] at hsucc hdir1
              by_cases hc2 : o.copyOk
              · rw [if_neg (by simpa using hc2)] at hsucc hdir1
                by_cases hs2 : o.syncOk
                · rw [if_neg (by simpa using hs2)] at hsucc hdir1
                  simp only at hdir1
                  rw [getDir_setDir_self st.dirs c _ (by rw [hdir]; rfl)] at hdir1
                  cases hdir1
                  exact ⟨le_trans (insertFile_length _ nm t) (Nat.succ_le_of_lt hb.1),
                         insertFile_names_nodup _ nm t hb.2⟩
                · rw [if_pos (by simpa using hs2)] at hsucc
                  simp at hsucc
              · rw [if_pos (by simpa using hc2)] at hsucc
                simp at hsucc
            · rw [if_pos (by simpa using hd2)] at hsucc
              simp at hsucc
    · rw [if_neg (by simpa using h1), if_pos (by simpa using h2)] at hsucc
      simp at hsucc
  · rw [if_pos (by simpa using h1)] at hsucc
    simp at hsucc

/-- Every nonempty undisturbed save sequence leaves the category with at
most `maxFiles` uniquely named files. -/
theorem saveSeq_le (cfg : Config) (c : String) (cat : Category)
    (hcat : lookupCat cfg.categories c = some cat) (hm : 1 ≤ cat.maxFiles) :
    ∀ (ops : List (String × Nat)) (st : ServiceState) (dir : List FileEntry),
      getDir st.dirs c = some dir → (dir.map FileEntry.name).Nodup → ops ≠ [] →
      ∀ dir1, getDir (saveSeq cfg c st ops).dirs c = some dir1 →
        dir1.length ≤ cat.maxFiles ∧ (dir1.map FileEntry.name).Nodup := by
  intro ops
  induction ops with
  | nil => intro st dir _ _ hne; exact absurd rfl hne
  | cons op rest ih =>
    intro st dir hdir hnd _
    obtain ⟨nm, t⟩ := op
    obtain ⟨-, dir1, hdir1, hlen1, hnd1⟩ :=
      saveFile_noFail_le cfg c nm t st cat dir hcat hm hdir hnd
    cases rest with
    | nil =>
      intro d1 hd1
      unfold saveSeq at hd1
      rw [show saveSeq cfg c (SaveFile cfg noFail c nm t st).2 [] =
            (SaveFile cfg noFail c nm t st).2 from rfl] at hd1
      rw [hdir1] at hd1
      cases hd1
      exact ⟨hlen1, hnd1⟩
    | cons op2 rest2 =>
      intro d1 hd1
      exact ih (SaveFile cfg noFail c nm t st).2 dir1 hdir1 hnd1 (by simp) d1 hd1

/-- C1: for a category configured with `max_files = N` (`N ≥ 1`, as
config validation guarantees) whose directory exists with uniquely named
files, after any nonempty sequence of (successful, undisturbed)
`SaveFile` calls the category directory holds at most `N` files; in the
concrete scenario with `N = 3`, uploading A, B, C, D in order succeeds
at every step and leaves exactly {B, C, D}, with A evicted as oldest. -/
theorem c1_max_files :
    (∀ (cfg : Config) (o : SaveOracles) (c nm : String) (t : Nat) (cat : Category)
        (st : ServiceState) (dir : List FileEntry),
      lookupCat cfg.categories c = some cat → 1 ≤ cat.maxFiles →
      getDir st.dirs c = some dir → (dir.map FileEntry.name).Nodup →
      (SaveFile cfg o c nm t st).1 = none →
      ∀ dir1, getDir (SaveFile cfg o c nm t st).2.dirs c = some dir1 →
        dir1.length ≤ cat.maxFiles)
    ∧ (∀ (cfg : Config) (c : String) (cat : Category) (st : ServiceState)
        (dir : List FileEntry) (ops : List (String × Nat)),
      lookupCat cfg.categories c = some cat → 1 ≤ cat.maxFiles →
      getDir st.dirs c = some dir → (dir.map FileEntry.name).Nodup → ops ≠ [] →
      ∀ dir1, getDir (saveSeq cfg c st ops).dirs c = some dir1 →
        dir1.length ≤ cat.maxFiles)
    ∧ saveSeqOk vanillaCfg "vanilla" emptyVanilla
        [("A.zip", 1), ("B.zip", 2), ("C.zip", 3), ("D.zip", 4)] = true
    ∧ getDir (saveSeq vanillaCfg "vanilla" emptyVanilla
        [("A.zip", 1), ("B.zip", 2), ("C.zip", 3), ("D.zip", 4)]).dirs "vanilla"
      = some [{ name := "B.zip", modTime := 2 }, { name := "C.zip", modTime := 3 },
              { name := "D.zip", modTime := 4 }] := by
  refine ⟨?_, ?_, by decide, by decide⟩
  · intro cfg o c nm t cat st dir hcat hm hdir hnd hsucc dir1 hdir1
    exact (saveFile_ok_le cfg o c nm t st cat dir hcat hm hdir hnd hsucc dir1 hdir1).1
  · intro cfg c cat st dir ops hcat hm hdir hnd hne dir1 hdir1
    exact (saveSeq_le cfg c cat hcat hm ops st dir hdir hnd hne dir1 hdir1).1

/-- Closed instance of `c1_max_files` on the four-upload scenario. -/
theorem c1_max_files_witness :
    ∀ dir1, getDir (saveSeq vanillaCfg "vanilla" emptyVanilla
        [("A.zip", 1), ("B.zip", 2), ("C.zip", 3), ("D.zip", 4)]).dirs "vanilla"
      = some dir1 → dir1.length ≤ 3 :=
  c1_max_files.2.1 vanillaCfg "vanilla" { enabled := true, maxFiles := 3 } emptyVanilla []
    [("A.zip", 1), ("B.zip", 2), ("C.zip", 3), ("D.zip", 4)]
    (by decide) (by decide) (by decide) (by decide) (by decide)

/-- C3 amended: a `SaveFile` failure before the critical section leaves
the whole state unchanged; a retention failure leaves the files evicted
before the failing deletion deleted — the surviving directory is a
subset of the pre-call one — with no destination file created; and when
the rename fallback fails during the data copy or during the fsync, a
(partial) destination file additionally remains. -/
theorem c3_error_frame :
    (∀ cfg o c nm t st, ¬ o.tempOk →
      SaveFile cfg o c nm t st = (some "failed to create temp file", st))
    ∧ (∀ cfg o c nm t st, o.tempOk → ¬ o.streamOk →
      SaveFile cfg o c nm t st = (some "failed to write file", st))
    ∧ (∀ cfg o c nm t st cat dir e dirE, o.tempOk → o.streamOk →
      lookupCat cfg.categories c = some cat → getDir st.dirs c = some dir →
      enforceFileLimit o.failDelete cat.maxFiles dir = (some e, dirE) →
      (SaveFile cfg o c nm t st).1.isSome = true
      ∧ getDir (SaveFile cfg o c nm t st).2.dirs c = some dirE
      ∧ dirE ⊆ dir)
    ∧ (∀ cfg o c nm t st cat dir dirE, o.tempOk → o.streamOk →
      ¬ o.renameOk → o.destCreateOk → ¬ o.copyOk →
      lookupCat cfg.categories c = some cat → getDir st.dirs c = some dir →
      enforceFileLimit o.failDelete cat.maxFiles dir = (none, dirE) →
      (SaveFile cfg o c nm t st).1.isSome = true
      ∧ getDir (SaveFile cfg o c nm t st).2.dirs c = some (insertFile dirE nm t))
    ∧ (∀ cfg o c nm t st cat dir dirE, o.tempOk → o.streamOk →
      ¬ o.renameOk → o.destCreateOk → o.copyOk → ¬ o.syncOk →
      lookupCat cfg.categories c = some cat → getDir st.dirs c = some dir →
      enforceFileLimit o.failDelete cat.maxFiles dir = (none, dirE) →
      (SaveFile cfg o c nm t st).1.isSome = true
      ∧ getDir (SaveFile cfg o c nm t st).2.dirs c = some (insertFile dirE nm t)) := by
  refine ⟨?_, ?_, ?_, ?_, ?_⟩
  · intro cfg o c nm t st h
    unfold SaveFile
    rw [if_pos h]
  · intro cfg o c nm t st h1 h2
    unfold SaveFile
    rw [if_neg (by simpa using h1), if_pos h2]
  · intro cfg o c nm t st cat dir e dirE h1 h2 hcat hdir henf
    have hsub : dirE ⊆ dir := by
      have := evictLoop_subset o.failDelete cat.maxFiles
        (List.insertionSort byModTime (readDir dir)) dir
      rw [show (evictLoop o.failDelete cat.maxFiles
            (List.insertionSort byModTime (readDir dir)) dir)
          = enforceFileLimit o.failDelete cat.maxFiles dir from rfl, henf] at this
      exact this
    unfold SaveFile
    rw [if_neg (by simpa using h1), if_neg (by simpa using h2)]
    simp only [hcat, hdir, henf]
    exact ⟨rfl, getDir_setDir_self st.dirs c dirE (by rw [hdir]; rfl), hsub⟩
  · intro cfg o c nm t st cat dir dirE h1 h2 h3 h4 h5 hcat hdir henf
    unfold SaveFile
    rw [if_neg (by simpa using h1), if_neg (by simpa using h2)]
    simp only [hcat, hdir, henf]
    rw [if_neg h3, if_neg (by simpa using h4), if_pos h5]
    exact ⟨rfl, getDir_setDir_self st.dirs c _ (by rw [hdir]; rfl)⟩
  · intro cfg o c nm t st cat dir dirE h1 h2 h3 h4 h5 h6 hcat hdir henf
    unfold SaveFile
    rw [if_neg (by simpa using h1), if_neg (by simpa using h2)]
    simp only [hcat, hdir, henf]
    rw [if_neg h3, if_neg (by simpa using h4), if_neg (by simpa using h5), if_pos h6]
    exact ⟨rfl, getDir_setDir_self st.dirs c _ (by rw [hdir]; rfl)⟩

/-- Closed instance of the retention branch of `c3_error_frame`: the
failing save of "d.zip" reports an error, yet the surviving "vanilla"
directory is {b.zip, c.zip} — a strict subset of the pre-call one with
"a.zip" already evicted. -/
theorem c3_error_frame_witness :
    (SaveFile vanillaCfg2 failDeleteB "vanilla" "d.zip" 10 threeFileState).1.isSome = true
    ∧ getDir (SaveFile vanillaCfg2 failDeleteB "vanilla" "d.zip" 10 threeFileState).2.dirs "vanilla"
        = some [{ name := "b.zip", modTime := 2 }, { name := "c.zip", modTime := 3 }]
    ∧ [{ name := "b.zip", modTime := 2 }, { name := "c.zip", modTime := 3 }] ⊆ threeFileDir :=
  c3_error_frame.2.2.1 vanillaCfg2 failDeleteB "vanilla" "d.zip" 10 threeFileState
    { enabled := true, maxFiles := 2 } threeFileDir "failed to remove old file b.zip"
    [{ name := "b.zip", modTime := 2 }, { name := "c.zip", modTime := 3 }]
    (by decide) (by decide) (by decide) (by decide) (by decide)

/-- First sight of an identity: bucket pre-charged with `burst - 1`
tokens, request admitted. -/
theorem allow_fresh (r b : Nat) (ip : String) (t : Nat) :
    Allow { clients := [], rate := r, burst := b } ip t
      = (true, oneClient ((b : Int) - 1) t ip r b) := rfl

/-- A same-instant call with a positive balance is admitted and consumes
one token. -/
theorem allow_same_instant (r b : Nat) (ip : String) (t : Nat) (tok : Int) (h : 0 < tok) :
    Allow (oneClient tok t ip r b) ip t = (true, oneClient (tok - 1) t ip r b) := by
  norm_num [Allow, oneClient, lookupClient, setClient, h]

/-- A same-instant call with an empty bucket is rejected and changes
nothing. -/
theorem allow_exhausted (r b : Nat) (ip : String) (t : Nat) :
    Allow (oneClient 0 t ip r b) ip t = (false, oneClient 0 t ip r b) := by
  norm_num [Allow, oneClient, lookupClient, setClient]

/-- After exactly one idle minute with `rate = 60, burst = 10`, the
refill restores `min 60 10 = 10` tokens and the call consumes one. -/
theorem allow_refill_minute (ip : String) (t : Nat) :
    Allow (oneClient 0 t ip 60 10) ip (t + 60) = (true, oneClient 9 (t + 60) ip 60 10) := by
  norm_num [Allow, oneClient, lookupClient, setClient, Nat.add_sub_cancel_left]

/-- Draining a bucket of exactly `k` tokens with `k + 1` same-instant
calls: the first `k` are admitted, the last rejected, leaving an empty
bucket. -/
theorem allowN_drain_exhaust (r b : Nat) (ip : String) (t : Nat) :
    ∀ (k n : Nat) (tok : Int), n = k + 1 → tok = (k : Int) →
      allowN n (oneClient tok t ip r b) ip t
        = (List.replicate k true ++ [false], oneClient 0 t ip r b) := by
  intro k
  induction k with
  | zero =>
    intro n tok hn htok
    subst hn
    have htok0 : tok = 0 := by simpa using htok
    subst htok0
    have hstep0 : allowN 1 (oneClient 0 t ip r b) ip t
        = ((Allow (oneClient 0 t ip r b) ip t).1
            :: (allowN 0 (Allow (oneClient 0 t ip r b) ip t).2 ip t).1,
           (allowN 0 (Allow (oneClient 0 t ip r b) ip t).2 ip t).2) := rfl
    rw [hstep0, allow_exhausted]
    rfl
  | succ k ih =>
    intro n tok hn htok
    subst hn
    subst htok
    have hpos : (0 : Int) < ((k + 1 : Nat) : Int) := by positivity
    have hstep : allowN (k + 1 + 1) (oneClient ((k + 1 : Nat) : Int) t ip r b) ip t
        = ((Allow (oneClient ((k + 1 : Nat) : Int) t ip r b) ip t).1
            :: (allowN (k + 1) (Allow (oneClient ((k + 1 : Nat) : Int) t ip r b) ip t).2 ip t).1,
           (allowN (k + 1) (Allow (oneClient ((k + 1 : Nat) : Int) t ip r b) ip t).2 ip t).2) := rfl
    rw [hstep, allow_same_instant r b ip t _ hpos]
    have hcast : ((k + 1 : Nat) : Int) - 1 = ((k : Nat) : Int) := by push_cast; ring
    rw [hcast]
    rw [ih (k + 1) ((k : Nat) : Int) rfl rfl]
    simp [List.replicate_succ]

/-- C5: from a fresh limiter with `burst = 10, rate = 60/min`, eleven
same-instant calls from one identity yield ten admissions then a
rejection; after exactly one idle minute, eleven further calls yield the
same pattern. -/
theorem c5_token_bucket (ip : String) (t : Nat) :
    (allowN 11 { clients := [], rate := 60, burst := 10 } ip t).1
      = List.replicate 10 true ++ [false]
    ∧ (allowN 11 (allowN 11 { clients := [], rate := 60, burst := 10 } ip t).2 ip (t + 60)).1
      = List.replicate 10 true ++ [false] := by
  have hstep1 : allowN 11 { clients := [], rate := 60, burst := 10 } ip t
      = ((Allow { clients := [], rate := 60, burst := 10 } ip t).1
          :: (allowN 10 (Allow { clients := [], rate := 60, burst := 10 } ip t).2 ip t).1,
         (allowN 10 (Allow { clients := [], rate := 60, burst := 10 } ip t).2 ip t).2) := rfl
  have h1 : allowN 11 { clients := [], rate := 60, burst := 10 } ip t
      = (List.replicate 10 true ++ [false], oneClient 0 t ip 60 10) := by
    rw [hstep1, allow_fresh]
    have hnine : ((10 : Nat) : Int) - 1 = ((9 : Nat) : Int) := by norm_num
    rw [hnine]
    rw [allowN_drain_exhaust 60 10 ip t 9 10 ((9 : Nat) : Int) (by norm_num) rfl]
    simp [List.replicate_succ]
  refine ⟨by rw [h1], ?_⟩
  rw [h1]
  have hstep2 : allowN 11 (oneClient 0 t ip 60 10) ip (t + 60)
      = ((Allow (oneClient 0 t ip 60 10) ip (t + 60)).1
          :: (allowN 10 (Allow (oneClient 0 t ip 60 10) ip (t + 60)).2 ip (t + 60)).1,
         (allowN 10 (Allow (oneClient 0 t ip 60 10) ip (t + 60)).2 ip (t + 60)).2) := rfl
  rw [hstep2, allow_refill_minute ip t]
  have hnine2 : (9 : Int) = ((9 : Nat) : Int) := by norm_num
  rw [hnine2]
  rw [allowN_drain_exhaust 60 10 ip (t + 60) 9 10 ((9 : Nat) : Int) (by norm_num) rfl]
  simp [List.replicate_succ]

end RomServer
